import Mathlib

/-!
Verification of the context-extraction and semantic-retrieval core of the
conversation service (shallow embedding of the JavaScript sources).

Conventions of the embedding:
- JavaScript exceptions are modelled with `Except String`; a function that
  the source wraps in try/catch is split into a `...Body` in `Except` plus a
  total wrapper applying the catch handler.
- JavaScript `undefined`/`null` fields are modelled with `Option`.
- The JS regular-expression engine is a host library, not repository code;
  a `MatchedText` value records, for each of the four fixed regular
  expressions appearing in the source, the captured groups of its match
  against the input text (`none` when the pattern does not match).
- Numbers on the extractor side are `Rat` (the source only manipulates
  fixed decimal constants there); embedding vectors are idealized as real
  numbers, `Real.sqrt` standing for `Math.sqrt`.
- Timestamps are `Nat` values supplied explicitly (`CURRENT_TIMESTAMP` and
  `new Date()` within one call are the same instant `now`).
-/

namespace Conversation

/-- A fact extracted from text, `{ key, value, confidence }` in the source.
`value` is an `Option` because the source can store an `undefined` entity
value in a fact (`value: matchingEntity.value`). -/
structure Fact where
  key : String
  value : Option String
  confidence : Rat
deriving DecidableEq

/-- A normalized entity candidate, as built in `extractEntitiesViaPhi4`
(`src/README.md` lines 171-177).  The raw response fields `start`/`end`
are called `startPos`/`endPos` there. -/
structure EntityCandidate where
  type : String
  value : Option String
  confidence : Rat
  startPos : Option Int
  endPos : Option Int
deriving DecidableEq

/-- A raw entity object as found in the remote response payload
(`{ type, text|value, confidence?, start?, end? }`); every field may be
absent.  `end` is a Lean keyword, hence `startPos`/`endPos`. -/
structure RawEntity where
  type : Option String
  text : Option String
  value : Option String
  confidence : Option Rat
  startPos : Option Int
  endPos : Option Int
deriving DecidableEq

/-- The `data.data` level of the remote entity response. -/
structure Phi4Inner where
  entities : Option (List RawEntity)
deriving DecidableEq

/-- The `response.data` level of the remote entity response. -/
structure Phi4Data where
  status : Option String
  data : Option Phi4Inner
deriving DecidableEq

/-- Outcome of the awaited `axios.post` in `extractEntitiesViaPhi4`:
either the call threw (timeout, transport error, non-2xx) or it resolved
with a response whose `data` field may itself be absent. -/
inductive Phi4CallOutcome where
  | failure (msg : String)
  | success (respData : Option Phi4Data)
deriving DecidableEq

/-- JS `String.prototype.toLowerCase` (host library), as an executable map
over the character list. -/
def strLower (s : String) : String := ⟨s.data.map Char.toLower⟩

/-- JS `String.prototype.trim` (host library): drop whitespace from both
ends, as executable list operations. -/
def strTrim (s : String) : String :=
  ⟨((s.data.dropWhile (fun c => c.isWhitespace)).reverse.dropWhile
      (fun c => c.isWhitespace)).reverse⟩

/-- JS `a || b` on two possibly-undefined strings: the empty string is
falsy. -/
def jsOrStr (a b : Option String) : Option String :=
  match a with
  | some s => if s = "" then b else some s
  | none => b

/-- JS `c || d` on a possibly-undefined number `c` and default `d`:
`undefined` and `0` are both falsy. -/
def jsOrNum (c : Option Rat) (d : Rat) : Rat :=
  match c with
  | some x => if x = 0 then d else x
  | none => d

/-- The `typeMap` lookup table of `normalizeEntityType`. -/
def typeMap (t : String) : Option String :=
  if t = "PERSON" then some "person"
  else if t = "ORGANIZATION" then some "organization"
  else if t = "ORG" then some "organization"
  else if t = "LOCATION" then some "place"
  else if t = "LOC" then some "place"
  else if t = "GPE" then some "place"
  else if t = "DATE" then some "date"
  else if t = "TIME" then some "time"
  else if t = "PRODUCT" then some "product"
  else if t = "EVENT" then some "event"
  else if t = "FOOD" then some "food"
  else if t = "WORK_OF_ART" then some "media"
  else none

/-- Source `normalizeEntityType(phi4Type)`: `typeMap[phi4Type] || phi4Type.toLowerCase()`.
When `phi4Type` is `undefined` the table lookup yields `undefined` (falsy)
and `undefined.toLowerCase()` throws a `TypeError`. -/
def normalizeEntityType (phi4Type : Option String) : Except String String :=
  match phi4Type with
  | some t => .ok ((typeMap t).getD (strLower t))
  | none => .error "TypeError: Cannot read properties of undefined"

/-- The per-entity mapping body inside `extractEntitiesViaPhi4`
(`src/README.md` lines 171-177). -/
def mkCandidate (e : RawEntity) : Except String EntityCandidate :=
  match normalizeEntityType e.type with
  | .error err => .error err
  | .ok ty =>
      .ok { type := ty
            value := jsOrStr e.text e.value
            confidence := jsOrNum e.confidence (mkRat 4 5)
            startPos := e.startPos
            endPos := e.endPos }

/-- JS `Array.prototype.map` with a callback that can throw: the first
throw aborts the whole map. -/
def mapME {α β : Type} (f : α → Except String β) : List α → Except String (List β)
  | [] => .ok []
  | x :: xs =>
      match f x with
      | .error e => .error e
      | .ok y =>
          match mapME f xs with
          | .error e => .error e
          | .ok ys => .ok (y :: ys)

/-- The body of the `try` block of `extractEntitiesViaPhi4`: await the
remote call, test `response.data?.status === 'ok' && response.data?.data?.entities`,
and map the raw entities (`src/README.md` lines 139-181). -/
def phi4Body (o : Phi4CallOutcome) : Except String (List EntityCandidate) :=
  match o with
  | .failure e => .error e
  | .success none => .ok []
  | .success (some d) =>
      if d.status = some "ok" then
        match d.data with
        | some inner =>
            match inner.entities with
            | some ents => mapME mkCandidate ents
            | none => .ok []
        | none => .ok []
      else .ok []

/-- Source `extractEntitiesViaPhi4`: the whole body is wrapped in try/catch whose
handler returns `[]`, so the function never raises
(`src/README.md` lines 139-187). -/
def extractEntitiesViaPhi4 (o : Phi4CallOutcome) : List EntityCandidate :=
  match phi4Body o with
  | .ok cs => cs
  | .error _ => []

/-- The capture groups obtained by matching the input text against the four
fixed regular expressions of the source (the regex engine is a JS host
library; its results on the given text are inputs of the embedding):
- `favoriteMatch`: groups 1 and 2 of the favorite-pattern of
  `quickFactPatterns`;
- `nameMatch`: group 1 of the name-pattern of `quickFactPatterns`;
- `loveMatch`: group 1 of the love-pattern in `extractFactsViaLLM`;
- `fromMatch`: group 1 of the from-pattern in `extractFactsViaLLM`. -/
structure MatchedText where
  favoriteMatch : Option (String × String)
  nameMatch : Option String
  loveMatch : Option String
  fromMatch : Option String
deriving DecidableEq

/-- The `extract` callbacks of `this.quickFactPatterns`
(`src/README.md` lines 116-133), one per pattern, `none` when the pattern
did not match. -/
def quickFactPatterns : List (MatchedText → Option Fact) :=
  [ fun t => t.favoriteMatch.map (fun m =>
      { key := "favorite_" ++ m.1, value := some (strTrim m.2), confidence := mkRat 9 10 }),
    fun t => t.nameMatch.map (fun m =>
      { key := "user_name", value := some m, confidence := mkRat 95 100 }) ]

/-- Source `extractQuickFacts`: iterate the patterns in order, pushing the
extracted fact whenever the pattern matched (`src/README.md` lines 214-225). -/
def extractQuickFacts (text : MatchedText) : List Fact :=
  quickFactPatterns.foldl
    (fun facts p => match p text with
      | some f => facts ++ [f]
      | none => facts) []

/-- Substring containment on character lists (JS `String.prototype.includes`). -/
def charsContain (needle : List Char) : List Char → Bool
  | [] => needle.isEmpty
  | c :: rest => needle.isPrefixOf (c :: rest) || charsContain needle rest

/-- JS `hay.includes(needle)`. -/
def strContains (hay needle : String) : Bool :=
  charsContain needle.data hay.data

/-- JS `Array.prototype.find` with a callback that can throw: callbacks run
in order, the first `true` stops the scan, a throw aborts it. -/
def findE {α : Type} (p : α → Except String Bool) : List α → Except String (Option α)
  | [] => .ok none
  | x :: xs =>
      match p x with
      | .error e => .error e
      | .ok true => .ok (some x)
      | .ok false => findE p xs

/-- Callback of `entities.find` for the love-pattern:
`value.toLowerCase().includes(e.value.toLowerCase())`; throws when
`e.value` is `undefined`. -/
def loveFindPred (value : String) (e : EntityCandidate) : Except String Bool :=
  match e.value with
  | some v => .ok (strContains (strLower value) (strLower v))
  | none => .error "TypeError: Cannot read properties of undefined"

/-- Callback of `entities.find` for the from-pattern:
`e.type === 'place' && location.toLowerCase().includes(e.value.toLowerCase())`;
the `&&` short-circuits before touching `e.value`. -/
def fromFindPred (location : String) (e : EntityCandidate) : Except String Bool :=
  if e.type = "place" then
    match e.value with
    | some v => .ok (strContains (strLower location) (strLower v))
    | none => .error "TypeError: Cannot read properties of undefined"
  else .ok false

/-- The love-pattern half of `extractFactsViaLLM`
(`src/README.md` lines 235-250). -/
def loveFactsOf (text : MatchedText) (entities : List EntityCandidate) :
    Except String (List Fact) :=
  match text.loveMatch with
  | none => .ok []
  | some g =>
      let value := strTrim g
      match findE (loveFindPred value) entities with
      | .error e => .error e
      | .ok (some ent) =>
          .ok [{ key := "likes_" ++ ent.type, value := ent.value, confidence := mkRat 85 100 }]
      | .ok none => .ok []

/-- The from-pattern half of `extractFactsViaLLM`
(`src/README.md` lines 253-267). -/
def fromFactsOf (text : MatchedText) (entities : List EntityCandidate) :
    Except String (List Fact) :=
  match text.fromMatch with
  | none => .ok []
  | some g =>
      let location := strTrim g
      match findE (fromFindPred location) entities with
      | .error e => .error e
      | .ok (some ent) =>
          .ok [{ key := "home_location", value := ent.value, confidence := mkRat 9 10 }]
      | .ok none => .ok []

/-- Source `extractFactsViaLLM(text, entities)`: both template halves in source
order; a throw in either aborts the call (`src/README.md` lines 230-270). -/
def extractFactsViaLLM (text : MatchedText) (entities : List EntityCandidate) :
    Except String (List Fact) :=
  match loveFactsOf text entities with
  | .error e => .error e
  | .ok l1 =>
      match fromFactsOf text entities with
      | .error e => .error e
      | .ok l2 => .ok (l1 ++ l2)

/-- One `map.set(k, f)` step of a JS `Map` built by insertion: an existing
key keeps its position and gets the new value, a new key is appended. -/
def jsMapSet (m : List (String × Fact)) (k : String) (f : Fact) :
    List (String × Fact) :=
  if m.any (fun p => p.1 = k) then
    m.map (fun p => if p.1 = k then (k, f) else p)
  else m ++ [(k, f)]

/-- The JS `Map` of `new Map(allFacts.map(f => [f.key, f]))`. -/
def jsMapOfFacts (facts : List Fact) : List (String × Fact) :=
  facts.foldl (fun m f => jsMapSet m f.key f) []

/-- Source `Array.from(new Map(allFacts.map(f => [f.key, f])).values())`
(`src/README.md` lines 290-292). -/
def dedupByKey (facts : List Fact) : List Fact :=
  (jsMapOfFacts facts).map Prod.snd

/-- The last fact with key `k` in source order (`none` when there is none);
used to state the last-write-wins property of `dedupByKey`. -/
def lastWith (k : String) : List Fact → Option Fact
  | [] => none
  | f :: fs =>
      match lastWith k fs with
      | some g => some g
      | none => if f.key = k then some f else none

/-- The result object of `ContextExtractor.extract`. -/
structure ExtractionResult where
  facts : List Fact
  entities : List EntityCandidate
  sessionId : String
  extractedAt : Nat
  method : String
deriving DecidableEq

/-- The `try` block of `extract` (`src/README.md` lines 278-302): quick
facts, then the remote entity call (which never throws), then LLM fact
derivation (which can throw a `TypeError`), then merge and dedup. -/
def extractTry (text : MatchedText) (sessionId : String) (phi4 : Phi4CallOutcome)
    (now : Nat) : Except String ExtractionResult :=
  let quickFacts := extractQuickFacts text
  let entities := extractEntitiesViaPhi4 phi4
  match extractFactsViaLLM text entities with
  | .error e => .error e
  | .ok llmFacts =>
      let allFacts := quickFacts ++ llmFacts
      let uniqueFacts := dedupByKey allFacts
      .ok { facts := uniqueFacts, entities := entities, sessionId := sessionId,
            extractedAt := now, method := "phi4_llm" }

/-- Source `ContextExtractor.extract(text, sessionId)`: the catch handler re-runs
only `extractQuickFacts` and tags the result `method: 'fallback'` with an
empty entity list (`src/README.md` lines 275-317); the function itself
never raises, which the total return type reflects. -/
def extract (text : MatchedText) (sessionId : String) (phi4 : Phi4CallOutcome)
    (now : Nat) : ExtractionResult :=
  match extractTry text sessionId phi4 now with
  | .ok r => r
  | .error _ =>
      { facts := extractQuickFacts text, entities := [], sessionId := sessionId,
        extractedAt := now, method := "fallback" }

/-- The merged pre-dedup fact sequence of a normal-path run of `extract`
(`[...quickFacts, ...llmFacts]` in the source). -/
def allFactsOf (text : MatchedText) (phi4 : Phi4CallOutcome) :
    Except String (List Fact) :=
  match extractFactsViaLLM text (extractEntitiesViaPhi4 phi4) with
  | .error e => .error e
  | .ok llmFacts => .ok (extractQuickFacts text ++ llmFacts)

/-- A row of the `session_entities` table, field names as in the schema
(`src/src/handlers/contextHandler.cjs`). -/
structure EntityRecord where
  id : String
  session_id : String
  entity_type : String
  entity_value : String
  metadata : String
  first_mentioned_at : Nat
  last_mentioned_at : Nat
  mention_count : Nat
deriving DecidableEq

/-- The WHERE clause of the existence check in `addEntity`:
`session_id = ? AND entity_type = ? AND entity_value = ?`. -/
def entityMatches (sid ty v : String) (r : EntityRecord) : Bool :=
  r.session_id == sid && r.entity_type == ty && r.entity_value == v

/-- Source `db.get` on `session_entities` filtered by the triple: the first
matching row, or `undefined`. -/
def findEntity (db : List EntityRecord) (sid ty v : String) : Option EntityRecord :=
  db.find? (entityMatches sid ty v)

/-- Source `ContextHandler.addEntity` (`src/src/handlers/contextHandler.cjs`
lines 91-155): look the triple up; if found, increment `mention_count` and
set `last_mentioned_at` (UPDATE by `existing.id`); otherwise insert a fresh
row with `mention_count = 1` and both timestamps set to `now`.  Returns the
new table and the resolved record. -/
def addEntity (db : List EntityRecord) (sid ty v metadata : String) (now : Nat)
    (freshId : String) : List EntityRecord × EntityRecord :=
  match findEntity db sid ty v with
  | some existing =>
      let updated := { existing with
        mention_count := existing.mention_count + 1, last_mentioned_at := now }
      (db.map (fun r => if r.id == existing.id then updated else r), updated)
  | none =>
      let newRec : EntityRecord :=
        { id := freshId, session_id := sid, entity_type := ty, entity_value := v,
          metadata := metadata, first_mentioned_at := now, last_mentioned_at := now,
          mention_count := 1 }
      (db ++ [newRec], newRec)

/-- Run a sequence of `addEntity` calls for one triple, recording the table
and the resolved record after each call; each list element of `calls` is a
pair (timestamp of the call, fresh id offered to the call). -/
def upsertStates (db : List EntityRecord) (sid ty v meta : String) :
    List (Nat × String) → List (List EntityRecord × EntityRecord)
  | [] => []
  | (t, fid) :: rest =>
      let step := addEntity db sid ty v meta t fid
      step :: upsertStates step.1 sid ty v meta rest

/-- Source `cosineSimilarity(vecA, vecB)` (`src/src/handlers/semanticSearchHandler.cjs`
lines 51-74): length mismatch throws; the accumulation loop is the three
sums below; after `Math.sqrt`, a zero magnitude on either side returns 0,
otherwise the quotient.  Floats are idealized as real numbers. -/
noncomputable def cosineSimilarity (vecA vecB : List ℝ) : Except String ℝ :=
  if vecA.length ≠ vecB.length then .error "Vectors must have the same length"
  else
    let dotProduct := ((vecA.zip vecB).map fun p => p.1 * p.2).sum
    let normA := Real.sqrt ((vecA.map fun x => x * x).sum)
    let normB := Real.sqrt ((vecB.map fun x => x * x).sum)
    if normA = 0 ∨ normB = 0 then .ok 0
    else .ok (dotProduct / (normA * normB))

/-- The stored `embedding` column of a message row: absent (`NULL`), a
string that `JSON.parse` rejects, or a parsed vector. -/
inductive RawEmbedding where
  | absent
  | unparsable (s : String)
  | parsed (v : List ℝ)

/-- Lines 119-129 of `searchMessages`: `embedding` starts `null`; a present
column is parsed, a parse failure only warns and leaves `null`. -/
def parseEmbedding : RawEmbedding → Option (List ℝ)
  | .absent => none
  | .unparsable _ => none
  | .parsed v => some v

/-- A row of `conversation_messages` as returned by the SELECT in
`searchMessages`; the list given to `searchMessages` is assumed ordered by
`created_at DESC` as the query requests.  `metadata` is carried opaquely
(every stored metadata is `JSON.stringify` output, so its re-parse cannot
throw). -/
structure StoredMessage where
  id : String
  session_id : String
  content : String
  role : String
  created_at : Nat
  metadata : String
  embedding : RawEmbedding

/-- One element of `scoredMessages` (lines 136-145 of the source). -/
structure ScoredMessage where
  id : String
  sessionId : String
  text : String
  sender : String
  timestamp : Nat
  metadata : String
  similarity : ℝ
  hasEmbedding : Bool

/-- The callback of `messages.map` in `searchMessages` (lines 117-146):
parse the embedding, score it against the query (which can throw on a
length mismatch), and build the scored record. -/
noncomputable def scoreMessage (queryEmbedding : List ℝ) (msg : StoredMessage) :
    Except String ScoredMessage :=
  let embedding := parseEmbedding msg.embedding
  match (match embedding with
         | some e => cosineSimilarity queryEmbedding e
         | none => .ok 0) with
  | .error e => .error e
  | .ok similarity =>
      .ok { id := msg.id, sessionId := msg.session_id, text := msg.content,
            sender := msg.role, timestamp := msg.created_at, metadata := msg.metadata,
            similarity := similarity, hasEmbedding := embedding.isSome }

/-- A combined result entry, `{ ...msg, reason }`. -/
structure TaggedMessage where
  id : String
  sessionId : String
  text : String
  sender : String
  timestamp : Nat
  metadata : String
  similarity : ℝ
  hasEmbedding : Bool
  reason : String

/-- Source `{ ...msg, reason }` in the combine step (lines 157-160). -/
def tagMsg (reason : String) (m : ScoredMessage) : TaggedMessage :=
  { id := m.id, sessionId := m.sessionId, text := m.text, sender := m.sender,
    timestamp := m.timestamp, metadata := m.metadata, similarity := m.similarity,
    hasEmbedding := m.hasEmbedding, reason := reason }

/-- The `stats` object of the result (lines 169-174). -/
structure SearchStats where
  totalMessages : Nat
  recentCount : Nat
  semanticCount : Nat
  messagesWithEmbeddings : Nat

/-- The result object of `searchMessages`; the empty-session early return
(lines 107-114) carries no `stats`, hence the `Option`. -/
structure SearchResult where
  messages : List TaggedMessage
  count : Nat
  searchQuery : String
  method : String
  stats : Option SearchStats

/-- JS `Array.prototype.slice(start, stop)` with ECMAScript index
clamping: a negative index counts from the end of the array. -/
def jsSlice {α : Type} (l : List α) (start stop : Int) : List α :=
  let len : Int := l.length
  let s := if start < 0 then max (len + start) 0 else min start len
  let e := if stop < 0 then max (len + stop) 0 else min stop len
  (l.drop s.toNat).take (e - s).toNat

/-- JS one-argument `slice(start)`. -/
def jsSliceFrom {α : Type} (l : List α) (start : Int) : List α :=
  jsSlice l start l.length

/-- Insert into a list already sorted by `similarity` descending, after
every element of strictly larger similarity (ties keep the existing
element first). -/
noncomputable def insertBySim (m : ScoredMessage) :
    List ScoredMessage → List ScoredMessage
  | [] => [m]
  | y :: ys => if m.similarity < y.similarity then y :: insertBySim m ys else m :: y :: ys

/-- JS `array.sort((a, b) => b.similarity - a.similarity)` (line 153): a
stable sort by similarity descending; stable sorts agreeing with the
comparator produce a unique output, modelled by stable insertion sort. -/
noncomputable def sortBySimDesc : List ScoredMessage → List ScoredMessage
  | [] => []
  | x :: xs => insertBySim x (sortBySimDesc xs)

/-- Source `searchMessages(payload)` (`src/src/handlers/semanticSearchHandler.cjs`
lines 79-180).  `embedOutcome` is the result of the awaited
`generateEmbedding(searchQuery)` (which rethrows remote failures);
`messages` the session rows in `created_at DESC` order; `limit`,
`minSimilarity` and `includeRecent` the payload values (defaults 5, 0.5, 3
at the destructuring).  The outer catch only logs and rethrows, so errors
propagate unchanged. -/
noncomputable def searchMessages (sessionId searchQuery : String)
    (embedOutcome : Except String (List ℝ)) (messages : List StoredMessage)
    (limit : Int) (minSimilarity : ℝ) (includeRecent : Int) :
    Except String SearchResult :=
  if sessionId = "" ∨ searchQuery = "" then
    .error "sessionId and query are required"
  else
    match embedOutcome with
    | .error e => .error e
    | .ok queryEmbedding =>
        if messages.length = 0 then
          .ok { messages := [], count := 0, searchQuery := searchQuery,
                method := "semantic", stats := none }
        else
          match mapME (scoreMessage queryEmbedding) messages with
          | .error e => .error e
          | .ok scoredMessages =>
              let recentMessages := jsSlice scoredMessages 0 includeRecent
              let semanticMatches :=
                jsSlice
                  (sortBySimDesc
                    ((jsSliceFrom scoredMessages includeRecent).filter
                      (fun m => decide (minSimilarity ≤ m.similarity))))
                  0 (limit - includeRecent)
              let combinedMessages :=
                recentMessages.map (tagMsg "recent") ++
                semanticMatches.map (tagMsg "semantic")
              .ok { messages := combinedMessages,
                    count := combinedMessages.length,
                    searchQuery := searchQuery,
                    method := "semantic",
                    stats := some
                      { totalMessages := messages.length,
                        recentCount := recentMessages.length,
                        semanticCount := semanticMatches.length,
                        messagesWithEmbeddings :=
                          (scoredMessages.filter (fun m => m.hasEmbedding)).length } }

/-- The response shape `extractEntitiesViaPhi4` accepts:
`response.data?.status === 'ok'` and a present `response.data?.data?.entities`. -/
def goodShape (o : Phi4CallOutcome) : Prop :=
  ∃ d inner ents, o = .success (some d) ∧ d.status = some "ok" ∧
    d.data = some inner ∧ inner.entities = some ents

/-- Helper for lookups in the fact map of `dedupByKey`. -/
def mapLookup (m : List (String × Fact)) (k : String) : Option Fact :=
  (m.find? (fun p => p.1 = k)).map Prod.snd

/-- Concrete input: text matching no pattern. -/
def tNone : MatchedText :=
  { favoriteMatch := none, nameMatch := none, loveMatch := none, fromMatch := none }

/-- Concrete input: text matching only the love-pattern with span "pizza". -/
def tLove : MatchedText :=
  { favoriteMatch := none, nameMatch := none, loveMatch := some "pizza", fromMatch := none }

/-- Concrete input: text matching the favorite-pattern and the love-pattern. -/
def tFav : MatchedText :=
  { favoriteMatch := some ("food", "pizza"), nameMatch := none,
    loveMatch := some "pizza", fromMatch := none }

/-- Shorthand for a well-shaped remote outcome around a raw entity list. -/
def okOutcome (ents : List RawEntity) : Phi4CallOutcome :=
  .success (some { status := some "ok", data := some { entities := some ents } })

/-- Concrete remote outcome: a well-shaped response whose single entity has
an `undefined` text and value. -/
def pNoValue : Phi4CallOutcome :=
  okOutcome [{ type := some "PERSON", text := none, value := none,
               confidence := none, startPos := none, endPos := none }]

/-- Concrete remote outcome: a well-shaped response with one FOOD entity
"pizza". -/
def pFood : Phi4CallOutcome :=
  okOutcome [{ type := some "FOOD", text := some "pizza", value := none,
               confidence := some (mkRat 9 10), startPos := none, endPos := none }]

/-- Concrete remote outcome: a well-shaped response with one entity whose
reported confidence is exactly 0. -/
def pZeroConf : Phi4CallOutcome :=
  okOutcome [{ type := some "GPE", text := some "Paris", value := none,
               confidence := some 0, startPos := none, endPos := none }]

/-- The candidate that `extractEntitiesViaPhi4` builds from the entity of
`pZeroConf`. -/
def cZero : EntityCandidate :=
  { type := "place", value := some "Paris", confidence := mkRat 4 5,
    startPos := none, endPos := none }

/-- The quick fact extracted from `tFav`. -/
def factFav : Fact :=
  { key := "favorite_food", value := some "pizza", confidence := mkRat 9 10 }

/-- The derived fact extracted from `tFav` with the entities of `pFood`. -/
def factLikes : Fact :=
  { key := "likes_food", value := some "pizza", confidence := mkRat 85 100 }

/-- Concrete entity row used by witnesses. -/
def rW : EntityRecord :=
  { id := "id1", session_id := "s", entity_type := "person", entity_value := "Bob",
    metadata := "{}", first_mentioned_at := 3, last_mentioned_at := 3,
    mention_count := 1 }

/-- Concrete stored message without an embedding. -/
def msgNoEmb : StoredMessage :=
  { id := "m1", session_id := "s", content := "hello", role := "user",
    created_at := 10, metadata := "{}", embedding := .absent }

/-- Concrete stored message whose embedding parses to `[1]`. -/
def msgEmb (i : String) (t : Nat) : StoredMessage :=
  { id := i, session_id := "s", content := "hi " ++ i, role := "user",
    created_at := t, metadata := "{}", embedding := .parsed [1] }

/-- Concrete stored message whose embedding parses to the two-dimensional
vector `[1, 0]`. -/
def msgDim2 : StoredMessage :=
  { id := "mBad", session_id := "s", content := "bad", role := "user",
    created_at := 9, metadata := "{}", embedding := .parsed [1, 0] }

/-- The scored record `searchMessages` builds from `msgNoEmb`. -/
noncomputable def sNoEmb : ScoredMessage :=
  { id := "m1", sessionId := "s", text := "hello", sender := "user",
    timestamp := 10, metadata := "{}", similarity := 0, hasEmbedding := false }

/-- The scored record `searchMessages` builds from `msgEmb i t` against the
query embedding `[1]` (similarity 1). -/
noncomputable def sEmb (i : String) (t : Nat) : ScoredMessage :=
  { id := i, sessionId := "s", text := "hi " ++ i, sender := "user",
    timestamp := t, metadata := "{}", similarity := 1, hasEmbedding := true }

/-- Expected result of `searchMessages "s" "q" (.ok [1]) [msgNoEmb] 5 0 0`:
the embedding-less message surfaces through the semantic path. -/
noncomputable def resSem : SearchResult :=
  { messages := [tagMsg "semantic" sNoEmb], count := 1, searchQuery := "q",
    method := "semantic", stats := some
      { totalMessages := 1, recentCount := 0, semanticCount := 1,
        messagesWithEmbeddings := 0 } }

/-- Expected result of searching `[msgNoEmb]` with `includeRecent = 1`. -/
noncomputable def resRecent : SearchResult :=
  { messages := [tagMsg "recent" sNoEmb], count := 1, searchQuery := "q",
    method := "semantic", stats := some
      { totalMessages := 1, recentCount := 1, semanticCount := 0,
        messagesWithEmbeddings := 0 } }

/-- Expected result of searching four embedded messages with `limit = 1`
and `includeRecent = 2`: three entries come back, one of them semantic. -/
noncomputable def resOver : SearchResult :=
  { messages := [tagMsg "recent" (sEmb "a" 13), tagMsg "recent" (sEmb "b" 12),
      tagMsg "semantic" (sEmb "c" 11)],
    count := 3, searchQuery := "q", method := "semantic",
    stats := some
      { totalMessages := 4, recentCount := 2, semanticCount := 1,
        messagesWithEmbeddings := 4 } }

theorem mapME_ok_mem {α β : Type} (f : α → Except String β) :
    ∀ (l : List α) (ys : List β), mapME f l = .ok ys → ∀ y ∈ ys, ∃ x ∈ l, f x = .ok y := by
  intro l
  induction l with
  | nil =>
      intro ys h y hy
      simp only [mapME, Except.ok.injEq] at h
      subst h
      simp at hy
  | cons x xs ih =>
      intro ys h y hy
      simp only [mapME] at h
      cases hfx : f x with
      | error e => rw [hfx] at h; exact absurd h (by simp)
      | ok b =>
          rw [hfx] at h
          cases hrest : mapME f xs with
          | error e => rw [hrest] at h; exact absurd h (by simp)
          | ok bs =>
              rw [hrest] at h
              simp only [Except.ok.injEq] at h
              subst h
              rcases List.mem_cons.mp hy with rfl | hy
              · exact ⟨x, List.mem_cons_self x xs, hfx⟩
              · rcases ih bs hrest y hy with ⟨a, ha, hfa⟩
                exact ⟨a, List.mem_cons_of_mem x ha, hfa⟩

theorem mapME_ok_of_mem {α β : Type} (f : α → Except String β) :
    ∀ (l : List α) (ys : List β), mapME f l = .ok ys → ∀ x ∈ l, ∃ y, f x = .ok y := by
  intro l
  induction l with
  | nil => intro ys _ x hx; simp at hx
  | cons a as ih =>
      intro ys h x hx
      simp only [mapME] at h
      cases hfa : f a with
      | error e => rw [hfa] at h; exact absurd h (by simp)
      | ok b =>
          rw [hfa] at h
          cases hrest : mapME f as with
          | error e => rw [hrest] at h; exact absurd h (by simp)
          | ok bs =>
              rcases List.mem_cons.mp hx with rfl | hx
              · exact ⟨b, hfa⟩
              · exact ih bs hrest x hx

theorem jsOrNum_default_ne_zero (c : Option Rat) : jsOrNum c (mkRat 4 5) ≠ 0 := by
  cases c with
  | none => simp only [jsOrNum]; norm_num
  | some x =>
      by_cases hx : x = 0
      · simp only [jsOrNum, if_pos hx]; norm_num
      · simp only [jsOrNum, if_neg hx]; exact hx

theorem mkCandidate_confidence (e : RawEntity) (c : EntityCandidate)
    (h : mkCandidate e = .ok c) : c.confidence = jsOrNum e.confidence (mkRat 4 5) := by
  unfold mkCandidate at h
  cases hn : normalizeEntityType e.type with
  | error err => rw [hn] at h; exact absurd h (by simp)
  | ok ty =>
      rw [hn] at h
      simp only [Except.ok.injEq] at h
      rw [← h]

theorem phi4Body_ok (o : Phi4CallOutcome) (cs : List EntityCandidate)
    (h : phi4Body o = .ok cs) :
    cs = [] ∨ ∃ ents, mapME mkCandidate ents = .ok cs := by
  cases o with
  | failure e => exact absurd h (by simp [phi4Body])
  | success respData =>
      cases respData with
      | none =>
          left
          simp only [phi4Body, Except.ok.injEq] at h
          exact h.symm
      | some d =>
          by_cases hs : d.status = some "ok"
          · cases hd : d.data with
            | none =>
                left
                simp only [phi4Body, hs, if_true, hd, Except.ok.injEq] at h
                exact h.symm
            | some inner =>
                cases he : inner.entities with
                | none =>
                    left
                    simp only [phi4Body, hs, if_true, hd, he, Except.ok.injEq] at h
                    exact h.symm
                | some ents =>
                    right
                    refine ⟨ents, ?_⟩
                    simp only [phi4Body, hs, if_true, hd, he] at h
                    exact h
          · left
            simp only [phi4Body, hs, if_false, Except.ok.injEq] at h
            exact h.symm

/-- Claim C6: `extractEntitiesViaPhi4` never raises to its caller: on every
failure outcome of the remote call — a thrown request (timeout, transport
error) or a response not matching the expected shape — it returns the empty
sequence of entity candidates. -/
theorem extractEntities_soft_failure (o : Phi4CallOutcome) (h : ¬ goodShape o) :
    extractEntitiesViaPhi4 o = [] := by
  cases o with
  | failure e => rfl
  | success respData =>
      cases respData with
      | none => rfl
      | some d =>
          by_cases hs : d.status = some "ok"
          · cases hd : d.data with
            | none => simp [extractEntitiesViaPhi4, phi4Body, hs, hd]
            | some inner =>
                cases he : inner.entities with
                | none => simp [extractEntitiesViaPhi4, phi4Body, hs, hd, he]
                | some ents =>
                    exact absurd ⟨d, inner, ents, rfl, hs, hd, he⟩ h
          · simp [extractEntitiesViaPhi4, phi4Body, hs]

theorem extractEntities_soft_failure_witness :
    ¬ goodShape (.failure "timeout") ∧
      extractEntitiesViaPhi4 (.failure "timeout") = [] := by
  have hng : ¬ goodShape (.failure "timeout") := by
    intro h
    rcases h with ⟨d, inner, ents, h, -⟩
    exact Phi4CallOutcome.noConfusion h
  exact ⟨hng, extractEntities_soft_failure _ hng⟩

/-- Claim C9: every entity candidate returned by `extractEntitiesViaPhi4` has
a non-zero confidence; any falsy remote confidence — absent or an explicit
0 — is replaced by the default 0.8, so a remote-reported confidence of
exactly 0 is never preserved. -/
theorem candidate_confidence_nonzero :
    (∀ (o : Phi4CallOutcome) (c : EntityCandidate),
      c ∈ extractEntitiesViaPhi4 o → c.confidence ≠ 0) ∧
    (∀ (e : RawEntity) (c : EntityCandidate), mkCandidate e = .ok c →
      (e.confidence = none ∨ e.confidence = some 0) → c.confidence = mkRat 4 5) := by
  constructor
  · intro o c hc
    unfold extractEntitiesViaPhi4 at hc
    cases hb : phi4Body o with
    | error e => rw [hb] at hc; simp at hc
    | ok cs =>
        rw [hb] at hc
        rcases phi4Body_ok o cs hb with rfl | ⟨ents, hm⟩
        · simp at hc
        · rcases mapME_ok_mem mkCandidate ents cs hm c hc with ⟨e, -, he⟩
          rw [mkCandidate_confidence e c he]
          exact jsOrNum_default_ne_zero e.confidence
  · intro e c hok hfalsy
    rw [mkCandidate_confidence e c hok]
    rcases hfalsy with h0 | h0 <;> simp [jsOrNum, h0]

theorem candidate_confidence_nonzero_witness :
    extractEntitiesViaPhi4 pZeroConf = [cZero] ∧ cZero.confidence = mkRat 4 5 ∧
      cZero.confidence ≠ 0 := by
  have hlist : extractEntitiesViaPhi4 pZeroConf = [cZero] := by
    simp [extractEntitiesViaPhi4, phi4Body, pZeroConf, okOutcome, mapME, mkCandidate,
          normalizeEntityType, typeMap, jsOrStr, jsOrNum, cZero]
  refine ⟨hlist, by norm_num [cZero], ?_⟩
  exact candidate_confidence_nonzero.1 pZeroConf cZero
    (hlist ▸ List.mem_singleton_self cZero)

theorem extractTry_ok_shape (text : MatchedText) (sid : String) (phi4 : Phi4CallOutcome)
    (now : Nat) (r : ExtractionResult) (h : extractTry text sid phi4 now = .ok r) :
    r.method = "phi4_llm" ∧ r.sessionId = sid := by
  simp only [extractTry] at h
  cases hl : extractFactsViaLLM text (extractEntitiesViaPhi4 phi4) with
  | error e => rw [hl] at h; exact absurd h (by simp)
  | ok llm =>
      rw [hl] at h
      simp only [Except.ok.injEq] at h
      rw [← h]
      exact ⟨rfl, rfl⟩

/-- Claim C1, amended: for every text and sessionId, `extract` returns an
`ExtractionResult` and never raises (its return type is total); the method
field is one of {"phi4_llm", "fallback"}, and it is "fallback" exactly when
an unexpected error escaped the pipeline, in which case the facts are only
the re-run lexical quick facts and the entity list is empty. -/
theorem extract_total_and_fallback (text : MatchedText) (sid : String)
    (phi4 : Phi4CallOutcome) (now : Nat) :
    ((extract text sid phi4 now).method = "phi4_llm" ∨
      (extract text sid phi4 now).method = "fallback") ∧
    ((extract text sid phi4 now).method = "fallback" ↔
      ∃ e, extractTry text sid phi4 now = .error e) ∧
    ((extract text sid phi4 now).method = "fallback" →
      (extract text sid phi4 now).facts = extractQuickFacts text ∧
      (extract text sid phi4 now).entities = []) ∧
    (extract text sid phi4 now).sessionId = sid := by
  cases h : extractTry text sid phi4 now with
  | ok r =>
      have hr := extractTry_ok_shape text sid phi4 now r h
      have he : extract text sid phi4 now = r := by
        unfold extract; rw [h]
      rw [he]
      refine ⟨Or.inl hr.1, ⟨?_, ?_⟩, ?_, hr.2⟩
      · intro hf
        rw [hr.1] at hf
        exact absurd hf (by decide)
      · rintro ⟨e, he2⟩
        exact absurd he2 (by simp)
      · intro hf
        rw [hr.1] at hf
        exact absurd hf (by decide)
  | error e =>
      have he : extract text sid phi4 now =
          { facts := extractQuickFacts text, entities := [], sessionId := sid,
            extractedAt := now, method := "fallback" } := by
        unfold extract; rw [h]
      rw [he]
      exact ⟨Or.inr rfl, ⟨fun _ => ⟨e, rfl⟩, fun _ => rfl⟩, fun _ => ⟨rfl, rfl⟩, rfl⟩

/-- Claim C1 counterexample: on a text matching no pattern and a timed-out
remote call, `extract` completes its normal path and returns
`method = "phi4_llm"`, which is neither "full" nor "fallback" — refuting
the claim that the method field is always one of {"full", "fallback"}. -/
theorem extract_method_counterexample :
    (extract tNone "s" (.failure "timeout") 0).method = "phi4_llm" ∧
      "phi4_llm" ≠ "full" ∧ "phi4_llm" ≠ "fallback" := by
  refine ⟨?_, by decide, by decide⟩
  simp [extract, extractTry, extractQuickFacts, quickFactPatterns, tNone,
    extractEntitiesViaPhi4, phi4Body, extractFactsViaLLM, loveFactsOf, fromFactsOf,
    dedupByKey, jsMapOfFacts]

theorem extract_total_and_fallback_witness :
    (extract tLove "s" pNoValue 0).method = "fallback" ∧
      (extract tLove "s" pNoValue 0).facts = extractQuickFacts tLove ∧
      (extract tLove "s" pNoValue 0).entities = [] := by
  have herr : extractTry tLove "s" pNoValue 0 =
      .error "TypeError: Cannot read properties of undefined" := by
    simp [extractTry, tLove, pNoValue, okOutcome, extractEntitiesViaPhi4, phi4Body,
      mapME, mkCandidate, normalizeEntityType, typeMap, jsOrStr, jsOrNum,
      extractFactsViaLLM, loveFactsOf, findE, loveFindPred, extractQuickFacts,
      quickFactPatterns]
  have h := extract_total_and_fallback tLove "s" pNoValue 0
  have hfb : (extract tLove "s" pNoValue 0).method = "fallback" :=
    h.2.1.mpr ⟨_, herr⟩
  exact ⟨hfb, (h.2.2.1 hfb).1, (h.2.2.1 hfb).2⟩

theorem jsMapSet_keys (m : List (String × Fact)) (k : String) (f : Fact) :
    (jsMapSet m k f).map Prod.fst =
      if m.any (fun p => p.1 = k) then m.map Prod.fst else m.map Prod.fst ++ [k] := by
  unfold jsMapSet
  split
  · rw [List.map_map]
    apply List.map_congr_left
    intro p _
    by_cases hp : p.1 = k
    · simp [hp]
    · simp [hp]
  · simp

theorem jsMapSet_keys_nodup (m : List (String × Fact)) (k : String) (f : Fact)
    (h : (m.map Prod.fst).Nodup) : ((jsMapSet m k f).map Prod.fst).Nodup := by
  rw [jsMapSet_keys]
  split
  · exact h
  · next hany =>
      have hk : k ∉ m.map Prod.fst := by
        intro hmem
        rcases List.mem_map.mp hmem with ⟨p, hp, hpk⟩
        exact hany (List.any_eq_true.mpr ⟨p, hp, by simp [hpk]⟩)
      simp [List.nodup_append, h, hk]

theorem jsMapSet_pairs (m : List (String × Fact)) (k : String) (f : Fact)
    (hm : ∀ p ∈ m, p.1 = p.2.key) (hk : k = f.key) :
    ∀ p ∈ jsMapSet m k f, p.1 = p.2.key := by
  intro p hp
  unfold jsMapSet at hp
  split at hp
  · rcases List.mem_map.mp hp with ⟨q, hq, hqp⟩
    by_cases hqk : q.1 = k
    · rw [if_pos hqk] at hqp
      rw [← hqp, hk]
    · rw [if_neg hqk] at hqp
      rw [← hqp]
      exact hm q hq
  · rcases List.mem_append.mp hp with hp1 | hp1
    · exact hm p hp1
    · rcases List.mem_singleton.mp hp1 with rfl
      exact hk

theorem mapLookup_set_same (k : String) (f : Fact) :
    ∀ m : List (String × Fact), mapLookup (jsMapSet m k f) k = some f := by
  intro m
  induction m with
  | nil => simp [jsMapSet, mapLookup, List.find?]
  | cons p m ih =>
      by_cases hp : p.1 = k
      · have hany : (p :: m).any (fun q => q.1 = k) = true :=
          List.any_eq_true.mpr ⟨p, List.mem_cons_self p m, by simp [hp]⟩
        simp only [jsMapSet, hany, if_true, List.map_cons, if_pos hp]
        simp [mapLookup, List.find?]
      · cases hany : m.any (fun q => q.1 = k) with
        | true =>
            have hany2 : (p :: m).any (fun q => q.1 = k) = true := by
              simp [List.any_cons, hany]
            simp only [jsMapSet, hany2, if_true, List.map_cons, if_neg hp]
            have ih2 : mapLookup (m.map fun q => if q.1 = k then (k, f) else q) k = some f := by
              have := ih
              simp only [jsMapSet, hany, if_true] at this
              exact this
            simp only [mapLookup, List.find?] at ih2 ⊢
            rw [show (decide (p.1 = k)) = false by simp [hp]]
            exact ih2
        | false =>
            have hany2 : (p :: m).any (fun q => q.1 = k) = false := by
              simp [List.any_cons, hany, hp]
            simp only [jsMapSet, hany2, if_false, List.cons_append]
            have ih2 : mapLookup (m ++ [(k, f)]) k = some f := by
              have := ih
              simp only [jsMapSet, hany, if_false] at this
              exact this
            simp only [mapLookup, List.find?] at ih2 ⊢
            rw [show (decide (p.1 = k)) = false by simp [hp]]
            exact ih2

theorem upd_id_of_no_key (m : List (String × Fact)) (k : String) (f : Fact)
    (h : m.any (fun q => q.1 = k) = false) :
    m.map (fun q => if q.1 = k then (k, f) else q) = m := by
  have hall : ∀ q ∈ m, (if q.1 = k then (k, f) else q) = q := by
    intro q hq
    have hqk : decide (q.1 = k) = false := by
      cases hd : decide (q.1 = k) with
      | false => rfl
      | true =>
          exfalso
          have hm : m.any (fun q => q.1 = k) = true := List.any_eq_true.mpr ⟨q, hq, hd⟩
          rw [hm] at h
          exact Bool.noConfusion h
    exact if_neg (of_decide_eq_false hqk)
  rw [List.map_congr_left hall]
  exact List.map_id m

theorem mapLookup_set_other (k k2 : String) (f : Fact) (hk : k2 ≠ k) :
    ∀ m : List (String × Fact), mapLookup (jsMapSet m k f) k2 = mapLookup m k2 := by
  intro m
  induction m with
  | nil => simp [jsMapSet, mapLookup, List.find?, Ne.symm hk]
  | cons p m ih =>
      by_cases hpk : p.1 = k
      · have hany2 : (p :: m).any (fun q => q.1 = k) = true :=
          List.any_eq_true.mpr ⟨p, List.mem_cons_self p m, by simp [hpk]⟩
        have hp2 : decide (p.1 = k2) = false := by
          simp [hpk, Ne.symm hk]
        simp only [jsMapSet, hany2, if_true, List.map_cons, if_pos hpk]
        simp only [mapLookup, List.find?]
        rw [show (decide ((k, f).1 = k2)) = false by simp [Ne.symm hk]]
        rw [hp2]
        cases hany : m.any (fun q => q.1 = k) with
        | true =>
            have ih2 := ih
            simp only [jsMapSet, hany, if_true, mapLookup, List.find?] at ih2
            exact ih2
        | false => rw [upd_id_of_no_key m k f hany]
      · cases hany : m.any (fun q => q.1 = k) with
        | true =>
            have hany2 : (p :: m).any (fun q => q.1 = k) = true := by
              simp [List.any_cons, hany]
            simp only [jsMapSet, hany2, if_true, List.map_cons, if_neg hpk]
            have ih2 := ih
            simp only [jsMapSet, hany, if_true] at ih2
            by_cases hp2 : p.1 = k2
            · simp [mapLookup, List.find?, hp2]
            · simp only [mapLookup, List.find?] at ih2 ⊢
              rw [show (decide (p.1 = k2)) = false by simp [hp2]]
              exact ih2
        | false =>
            have hany2 : (p :: m).any (fun q => q.1 = k) = false := by
              simp [List.any_cons, hany, hpk]
            simp only [jsMapSet, hany2, if_false, List.cons_append]
            have ih2 := ih
            simp only [jsMapSet, hany, if_false] at ih2
            by_cases hp2 : p.1 = k2
            · simp [mapLookup, List.find?, hp2]
            · simp only [mapLookup, List.find?] at ih2 ⊢
              rw [show (decide (p.1 = k2)) = false by simp [hp2]]
              exact ih2

theorem jsMapOfFacts_keys_nodup_aux :
    ∀ (facts : List Fact) (m : List (String × Fact)), (m.map Prod.fst).Nodup →
      ((facts.foldl (fun m f => jsMapSet m f.key f) m).map Prod.fst).Nodup := by
  intro facts
  induction facts with
  | nil => intro m hm; exact hm
  | cons f fs ih =>
      intro m hm
      exact ih (jsMapSet m f.key f) (jsMapSet_keys_nodup m f.key f hm)

theorem jsMapOfFacts_keys_nodup (facts : List Fact) :
    ((jsMapOfFacts facts).map Prod.fst).Nodup :=
  jsMapOfFacts_keys_nodup_aux facts [] (by simp)

theorem jsMapOfFacts_pairs_aux :
    ∀ (facts : List Fact) (m : List (String × Fact)), (∀ p ∈ m, p.1 = p.2.key) →
      ∀ p ∈ facts.foldl (fun m f => jsMapSet m f.key f) m, p.1 = p.2.key := by
  intro facts
  induction facts with
  | nil => intro m hm; exact hm
  | cons f fs ih =>
      intro m hm
      exact ih (jsMapSet m f.key f) (jsMapSet_pairs m f.key f hm rfl)

theorem jsMapOfFacts_pairs (facts : List Fact) :
    ∀ p ∈ jsMapOfFacts facts, p.1 = p.2.key :=
  jsMapOfFacts_pairs_aux facts [] (by simp)

theorem mapLookup_foldl :
    ∀ (facts : List Fact) (m : List (String × Fact)) (k : String),
      mapLookup (facts.foldl (fun m f => jsMapSet m f.key f) m) k =
        match lastWith k facts with
        | some g => some g
        | none => mapLookup m k := by
  intro facts
  induction facts with
  | nil => intro m k; simp [lastWith]
  | cons f fs ih =>
      intro m k
      simp only [List.foldl_cons]
      rw [ih (jsMapSet m f.key f) k]
      cases hl : lastWith k fs with
      | some g => simp [lastWith, hl]
      | none =>
          by_cases hfk : f.key = k
          · subst hfk
            simp [lastWith, hl, mapLookup_set_same f.key f m]
          · simp [lastWith, hl, hfk, mapLookup_set_other f.key k f (Ne.symm hfk) m]

theorem mapLookup_of_mem_nodup :
    ∀ (m : List (String × Fact)) (k : String) (f : Fact),
      (m.map Prod.fst).Nodup → (k, f) ∈ m → mapLookup m k = some f := by
  intro m
  induction m with
  | nil => intro k f _ hm; simp at hm
  | cons p m ih =>
      intro k f hn hm
      rcases List.mem_cons.mp hm with rfl | hm
      · simp [mapLookup, List.find?]
      · have hk : k ∈ m.map Prod.fst := List.mem_map.mpr ⟨(k, f), hm, rfl⟩
        have hn2 : p.1 ∉ m.map Prod.fst ∧ (m.map Prod.fst).Nodup := by
          rw [List.map_cons] at hn
          exact List.nodup_cons.mp hn
        have hpk : ¬ (p.1 = k) := by
          intro hpk
          rw [hpk] at hn2
          exact hn2.1 hk
        have htail := ih k f hn2.2 hm
        simp only [mapLookup, List.find?] at htail ⊢
        rw [show (decide (p.1 = k)) = false by simp [hpk]]
        exact htail

/-- Claim C5: in the fact sequence returned by `extract` on its normal path
(the merged pre-dedup sequence `allFacts` succeeded), keys are unique, and
each retained fact is the last fact with its key in the concatenation of
lexical quick facts and derived facts (last-write-wins). -/
theorem extract_dedup_last_write_wins (text : MatchedText) (sid : String)
    (phi4 : Phi4CallOutcome) (now : Nat) (allFacts : List Fact)
    (h : allFactsOf text phi4 = .ok allFacts) :
    (((extract text sid phi4 now).facts.map Fact.key).Nodup) ∧
    (∀ f ∈ (extract text sid phi4 now).facts, lastWith f.key allFacts = some f) := by
  have hfacts : (extract text sid phi4 now).facts = dedupByKey allFacts := by
    simp only [allFactsOf] at h
    cases hl : extractFactsViaLLM text (extractEntitiesViaPhi4 phi4) with
    | error e => rw [hl] at h; exact absurd h (by simp)
    | ok llm =>
        rw [hl] at h
        simp only [Except.ok.injEq] at h
        have htry : extractTry text sid phi4 now =
            .ok { facts := dedupByKey allFacts, entities := extractEntitiesViaPhi4 phi4,
                  sessionId := sid, extractedAt := now, method := "phi4_llm" } := by
          simp only [extractTry, hl, h]
        unfold extract
        rw [htry]
  rw [hfacts]
  constructor
  · have hkeys : (dedupByKey allFacts).map Fact.key =
        (jsMapOfFacts allFacts).map Prod.fst := by
      unfold dedupByKey
      rw [List.map_map]
      apply List.map_congr_left
      intro p hp
      exact (jsMapOfFacts_pairs allFacts p hp).symm
    rw [hkeys]
    exact jsMapOfFacts_keys_nodup allFacts
  · intro f hf
    unfold dedupByKey at hf
    rcases List.mem_map.mp hf with ⟨p, hp, hpf⟩
    have hpair : p = (f.key, f) := by
      have h1 := jsMapOfFacts_pairs allFacts p hp
      cases p with
      | mk a b =>
          simp only at hpf
          subst hpf
          simp only at h1
          rw [h1]
    rw [hpair] at hp
    have hlook : mapLookup (jsMapOfFacts allFacts) f.key = some f :=
      mapLookup_of_mem_nodup (jsMapOfFacts allFacts) f.key f
        (jsMapOfFacts_keys_nodup allFacts) hp
    have hfold := mapLookup_foldl allFacts [] f.key
    rw [show jsMapOfFacts allFacts = allFacts.foldl (fun m f => jsMapSet m f.key f) []
          from rfl] at hlook
    rw [hfold] at hlook
    cases hl : lastWith f.key allFacts with
    | some g => rw [hl] at hlook; simp at hlook; rw [hlook]
    | none => rw [hl] at hlook; simp [mapLookup, List.find?] at hlook

theorem extract_dedup_last_write_wins_witness :
    allFactsOf tFav pFood = .ok [factFav, factLikes] ∧
    (((extract tFav "s" pFood 0).facts.map Fact.key).Nodup) ∧
    lastWith factFav.key [factFav, factLikes] = some factFav := by
  have hall : allFactsOf tFav pFood = .ok [factFav, factLikes] := by rfl
  have h := extract_dedup_last_write_wins tFav "s" pFood 0 [factFav, factLikes] hall
  have hmem : factFav ∈ (extract tFav "s" pFood 0).facts := by
    have hfacts : (extract tFav "s" pFood 0).facts = [factFav, factLikes] := by rfl
    rw [hfacts]
    exact List.mem_cons_self _ _
  exact ⟨hall, h.1, by rw [show factFav = (factFav : Fact) from rfl] at hmem ⊢; exact h.2 factFav hmem⟩

theorem addEntity_found (sid ty v meta : String) (t : Nat) (fid : String)
    (r : EntityRecord) (hm : entityMatches sid ty v r = true) :
    addEntity [r] sid ty v meta t fid =
      ([{ r with mention_count := r.mention_count + 1, last_mentioned_at := t }],
        { r with mention_count := r.mention_count + 1, last_mentioned_at := t }) := by
  unfold addEntity findEntity
  rw [List.find?_cons_of_pos _ hm]
  simp

theorem upsert_singleton (sid ty v meta : String) :
    ∀ (calls : List (Nat × String)) (r : EntityRecord),
      entityMatches sid ty v r = true →
      ((upsertStates [r] sid ty v meta calls).map (fun s => s.2.mention_count)
          = List.range' (r.mention_count + 1) calls.length) ∧
      ((upsertStates [r] sid ty v meta calls).map (fun s => s.2.first_mentioned_at)
          = List.replicate calls.length r.first_mentioned_at) ∧
      ((upsertStates [r] sid ty v meta calls).map (fun s => s.2.last_mentioned_at)
          = calls.map Prod.fst) ∧
      (∀ s ∈ upsertStates [r] sid ty v meta calls,
        findEntity s.1 sid ty v = some s.2) := by
  intro calls
  induction calls with
  | nil =>
      intro r hm
      exact ⟨rfl, rfl, rfl, by intro s hs; simp [upsertStates] at hs⟩
  | cons c rest ih =>
      intro r hm
      obtain ⟨t, fid⟩ := c
      have hstep := addEntity_found sid ty v meta t fid r hm
      have hupd : entityMatches sid ty v
          { r with mention_count := r.mention_count + 1, last_mentioned_at := t } = true := hm
      have ihr := ih { r with mention_count := r.mention_count + 1, last_mentioned_at := t } hupd
      have hunfold : upsertStates [r] sid ty v meta ((t, fid) :: rest) =
          ([{ r with mention_count := r.mention_count + 1, last_mentioned_at := t }],
            { r with mention_count := r.mention_count + 1, last_mentioned_at := t }) ::
          upsertStates [{ r with mention_count := r.mention_count + 1, last_mentioned_at := t }]
            sid ty v meta rest := by
        simp only [upsertStates, hstep]
      rw [hunfold]
      refine ⟨?_, ?_, ?_, ?_⟩
      · rw [List.map_cons, ihr.1]
        rfl
      · rw [List.map_cons, ihr.2.1]
        rfl
      · rw [List.map_cons, ihr.2.2.1]
        rfl
      · intro s hs
        rcases List.mem_cons.mp hs with rfl | hs
        · exact List.find?_cons_of_pos _ hupd
        · exact ihr.2.2.2 s hs

theorem nodup_map_id_inj (db : List EntityRecord)
    (h : (db.map EntityRecord.id).Nodup) :
    ∀ x ∈ db, ∀ y ∈ db, x.id = y.id → x = y := by
  induction db with
  | nil => intro x hx; simp at hx
  | cons a l ih =>
      intro x hx y hy hxy
      rw [List.map_cons] at h
      have h2 := List.nodup_cons.mp h
      rcases List.mem_cons.mp hx with rfl | hx2 <;>
        rcases List.mem_cons.mp hy with rfl | hy2
      · rfl
      · exfalso
        apply h2.1
        rw [hxy]
        exact List.mem_map.mpr ⟨y, hy2, rfl⟩
      · exfalso
        apply h2.1
        rw [← hxy]
        exact List.mem_map.mpr ⟨x, hx2, rfl⟩
      · exact ih h2.2 x hx2 y hy2 hxy

theorem addEntity_db_found (db : List EntityRecord) (sid ty v meta : String)
    (now : Nat) (fid : String) (existing : EntityRecord)
    (hf : findEntity db sid ty v = some existing) :
    (addEntity db sid ty v meta now fid).1 =
      db.map (fun x => if x.id == existing.id then
        { existing with
          mention_count := existing.mention_count + 1, last_mentioned_at := now }
        else x) := by
  unfold addEntity
  rw [hf]

theorem addEntity_db_notfound (db : List EntityRecord) (sid ty v meta : String)
    (now : Nat) (fid : String) (hf : findEntity db sid ty v = none) :
    (addEntity db sid ty v meta now fid).1 =
      db ++ [{ id := fid, session_id := sid, entity_type := ty, entity_value := v,
               metadata := meta, first_mentioned_at := now, last_mentioned_at := now,
               mention_count := 1 }] := by
  unfold addEntity
  rw [hf]

/-- Claim C4: for every (sessionId, entityType, entityValue) triple, after
N ≥ 1 sequential calls to `addEntity` for that triple starting from a table
with no record for it, the stored record has `mention_count = N` (the
mention counts after each call are 1, 2, ..., N), `first_mentioned_at` is
unchanged by every call after the first, and `last_mentioned_at` after each
call is that call's clock time (hence non-decreasing whenever the clock
is); moreover `mention_count` of any stored record never decreases under
any `addEntity` call (for any triple), the only mutating operation of this
core. -/
theorem addEntity_upsert_invariants :
    (∀ (sid ty v meta fid : String) (t0 : Nat) (calls : List (Nat × String)),
      ((addEntity [] sid ty v meta t0 fid ::
          upsertStates (addEntity [] sid ty v meta t0 fid).1 sid ty v meta calls).map
            (fun s => s.2.mention_count) = List.range' 1 (calls.length + 1)) ∧
      ((addEntity [] sid ty v meta t0 fid ::
          upsertStates (addEntity [] sid ty v meta t0 fid).1 sid ty v meta calls).map
            (fun s => s.2.first_mentioned_at) = List.replicate (calls.length + 1) t0) ∧
      ((addEntity [] sid ty v meta t0 fid ::
          upsertStates (addEntity [] sid ty v meta t0 fid).1 sid ty v meta calls).map
            (fun s => s.2.last_mentioned_at) = t0 :: calls.map Prod.fst) ∧
      (∀ s ∈ addEntity [] sid ty v meta t0 fid ::
          upsertStates (addEntity [] sid ty v meta t0 fid).1 sid ty v meta calls,
        findEntity s.1 sid ty v = some s.2)) ∧
    (∀ (db : List EntityRecord) (sid ty v meta : String) (now : Nat) (fid : String),
      (db.map EntityRecord.id).Nodup →
      ∀ r ∈ db, ∃ r2 ∈ (addEntity db sid ty v meta now fid).1,
        r2.id = r.id ∧ r.mention_count ≤ r2.mention_count ∧
        r2.first_mentioned_at = r.first_mentioned_at) := by
  constructor
  · intro sid ty v meta fid t0 calls
    have hfirst : addEntity [] sid ty v meta t0 fid =
        ([{ id := fid, session_id := sid, entity_type := ty, entity_value := v,
            metadata := meta, first_mentioned_at := t0, last_mentioned_at := t0,
            mention_count := 1 }],
          { id := fid, session_id := sid, entity_type := ty, entity_value := v,
            metadata := meta, first_mentioned_at := t0, last_mentioned_at := t0,
            mention_count := 1 }) := by
      unfold addEntity findEntity
      rfl
    have hmatch : entityMatches sid ty v
        { id := fid, session_id := sid, entity_type := ty, entity_value := v,
          metadata := meta, first_mentioned_at := t0, last_mentioned_at := t0,
          mention_count := 1 } = true := by
      simp [entityMatches]
    have hrest := upsert_singleton sid ty v meta calls _ hmatch
    rw [hfirst]
    refine ⟨?_, ?_, ?_, ?_⟩
    · rw [List.map_cons, hrest.1]
      rfl
    · rw [List.map_cons, hrest.2.1]
      rfl
    · rw [List.map_cons, hrest.2.2.1]
    · intro s hs
      rcases List.mem_cons.mp hs with rfl | hs
      · exact List.find?_cons_of_pos _ hmatch
      · exact hrest.2.2.2 s hs
  · intro db sid ty v meta now fid hids r hr
    cases hf : findEntity db sid ty v with
    | none =>
        rw [addEntity_db_notfound db sid ty v meta now fid hf]
        exact ⟨r, List.mem_append_left _ hr, rfl, le_refl _, rfl⟩
    | some existing =>
        have hex : existing ∈ db := by
          unfold findEntity at hf
          exact List.mem_of_find?_eq_some hf
        rw [addEntity_db_found db sid ty v meta now fid existing hf]
        by_cases hid : r.id = existing.id
        · have hre : r = existing := nodup_map_id_inj db hids r hr existing hex hid
          subst hre
          refine ⟨_, List.mem_map_of_mem _ hr, ?_, ?_, ?_⟩ <;> simp
        · refine ⟨_, List.mem_map_of_mem _ hr, ?_, ?_, ?_⟩ <;> simp [hid]

theorem addEntity_upsert_invariants_witness :
    ∃ r2 ∈ (addEntity [rW] "s" "person" "Bob" "{}" 9 "id2").1,
      r2.id = rW.id ∧ rW.mention_count ≤ r2.mention_count ∧
      r2.first_mentioned_at = rW.first_mentioned_at :=
  addEntity_upsert_invariants.2 [rW] "s" "person" "Bob" "{}" 9 "id2"
    (by decide) rW (by decide)

theorem cosineSimilarity_eq (a b : List ℝ) (hlen : a.length = b.length) :
    cosineSimilarity a b =
      (if Real.sqrt ((a.map fun x => x * x).sum) = 0 ∨
          Real.sqrt ((b.map fun x => x * x).sum) = 0 then Except.ok 0
       else Except.ok ((((a.zip b).map fun p => p.1 * p.2).sum) /
         (Real.sqrt ((a.map fun x => x * x).sum) *
          Real.sqrt ((b.map fun x => x * x).sum)))) := by
  simp only [cosineSimilarity]
  rw [if_neg (by simp [hlen])]

/-- Claim C7: `cosineSimilarity(a, b)` raises the dimension-mismatch error
exactly when the two lengths differ; with equal lengths, a magnitude of
exactly zero on either side yields the result 0 rather than an error. -/
theorem cosineSimilarity_mismatch_and_zero (a b : List ℝ) :
    ((∃ e, cosineSimilarity a b = .error e) ↔ a.length ≠ b.length) ∧
    (a.length = b.length →
      (Real.sqrt ((a.map fun x => x * x).sum) = 0 ∨
        Real.sqrt ((b.map fun x => x * x).sum) = 0) →
      cosineSimilarity a b = .ok 0) := by
  refine ⟨⟨?_, ?_⟩, ?_⟩
  · rintro ⟨e, he⟩
    by_contra hlen
    rw [cosineSimilarity_eq a b hlen] at he
    split at he <;> exact Except.noConfusion he
  · intro hlen
    refine ⟨"Vectors must have the same length", ?_⟩
    simp only [cosineSimilarity]
    rw [if_pos hlen]
  · intro hlen hz
    rw [cosineSimilarity_eq a b hlen, if_pos hz]

theorem cosineSimilarity_mismatch_and_zero_witness :
    ([(0:ℝ)].length = [(3:ℝ)].length) ∧ cosineSimilarity [(0:ℝ)] [(3:ℝ)] = .ok 0 :=
  ⟨rfl, (cosineSimilarity_mismatch_and_zero [(0:ℝ)] [(3:ℝ)]).2 rfl
    (Or.inl (by simp))⟩

theorem zip_self_map (v : List ℝ) :
    (v.zip v).map (fun p => p.1 * p.2) = v.map (fun x => x * x) := by
  induction v with
  | nil => rfl
  | cons x xs ih => simp only [List.zip_cons_cons, List.map_cons, ih]

/-- Claim C8: `cosineSimilarity(v, v) = 1` for every non-zero vector `v`
(vectors idealized as real-number lists). -/
theorem cosineSimilarity_self_eq_one (v : List ℝ) (x : ℝ) (hx : x ∈ v)
    (hx0 : x ≠ 0) : cosineSimilarity v v = .ok 1 := by
  have hS : 0 < (v.map fun y => y * y).sum := by
    have hnn : ∀ z ∈ v.map (fun y => y * y), 0 ≤ z := by
      intro z hz
      rcases List.mem_map.mp hz with ⟨y, -, rfl⟩
      exact mul_self_nonneg y
    have hle : x * x ≤ (v.map fun y => y * y).sum :=
      List.single_le_sum hnn (x * x) (List.mem_map.mpr ⟨x, hx, rfl⟩)
    exact lt_of_lt_of_le (mul_self_pos.mpr hx0) hle
  have hsq : Real.sqrt ((v.map fun y => y * y).sum) ≠ 0 :=
    Real.sqrt_ne_zero'.mpr hS
  rw [cosineSimilarity_eq v v rfl, if_neg (not_or.mpr ⟨hsq, hsq⟩), zip_self_map,
    Real.mul_self_sqrt (le_of_lt hS), div_self (ne_of_gt hS)]

theorem cosineSimilarity_self_eq_one_witness :
    ((1:ℝ) ∈ [(1:ℝ)]) ∧ (1:ℝ) ≠ 0 ∧ cosineSimilarity [(1:ℝ)] [(1:ℝ)] = .ok 1 :=
  ⟨List.mem_singleton_self 1, one_ne_zero,
    cosineSimilarity_self_eq_one [(1:ℝ)] 1 (List.mem_singleton_self 1) one_ne_zero⟩

theorem scoreMessage_zero (q : List ℝ) (msg : StoredMessage) (m : ScoredMessage)
    (h : scoreMessage q msg = .ok m) (hne : m.hasEmbedding = false) :
    m.similarity = 0 := by
  cases hp : parseEmbedding msg.embedding with
  | none =>
      simp only [scoreMessage, hp, Except.ok.injEq] at h
      rw [← h]
  | some e =>
      simp only [scoreMessage, hp] at h
      cases hc : cosineSimilarity q e with
      | error er => rw [hc] at h; exact absurd h (by simp)
      | ok s =>
          rw [hc] at h
          simp only [Except.ok.injEq] at h
          rw [← h] at hne
          simp at hne

theorem cosineSimilarity_error_of_ne (a b : List ℝ) (h : a.length ≠ b.length) :
    cosineSimilarity a b = .error "Vectors must have the same length" := by
  simp only [cosineSimilarity]
  rw [if_pos h]

theorem scoreMessage_mismatch (q : List ℝ) (msg : StoredMessage) (e : List ℝ)
    (hp : parseEmbedding msg.embedding = some e) (hl : q.length ≠ e.length) :
    ∀ m, scoreMessage q msg ≠ .ok m := by
  intro m h
  simp only [scoreMessage, hp] at h
  rw [cosineSimilarity_error_of_ne q e hl] at h
  exact absurd h (by simp)

theorem mem_insertBySim (x m : ScoredMessage) (l : List ScoredMessage) :
    x ∈ insertBySim m l ↔ x = m ∨ x ∈ l := by
  induction l with
  | nil => simp [insertBySim]
  | cons y ys ih =>
      simp only [insertBySim]
      split
      · rw [List.mem_cons, ih, List.mem_cons]
        tauto
      · simp [List.mem_cons]

theorem mem_sortBySimDesc (x : ScoredMessage) (l : List ScoredMessage) :
    x ∈ sortBySimDesc l ↔ x ∈ l := by
  induction l with
  | nil => simp [sortBySimDesc]
  | cons y ys ih =>
      simp only [sortBySimDesc]
      rw [mem_insertBySim, ih, List.mem_cons]

theorem mem_jsSlice {α : Type} (x : α) (l : List α) (s e : Int)
    (h : x ∈ jsSlice l s e) : x ∈ l := by
  unfold jsSlice at h
  have h1 := List.mem_of_mem_take h
  exact List.mem_of_mem_drop h1

theorem jsSlice_zero_length_le {α : Type} (l : List α) (e : Int) (he : 0 ≤ e) :
    (jsSlice l 0 e).length ≤ e.toNat ∧ (jsSlice l 0 e).length ≤ l.length := by
  simp only [jsSlice]
  rw [if_neg (by omega : ¬ (0:Int) < 0), if_neg (by omega : ¬ e < 0)]
  simp only [List.length_take, List.length_drop]
  constructor <;> omega

theorem jsSlice_zero_zero {α : Type} (l : List α) : jsSlice l 0 0 = [] := by
  simp only [jsSlice]
  rw [if_neg (by omega : ¬ (0:Int) < 0)]
  have h : ((min (0:Int) (l.length : Int)) - min (0:Int) (l.length : Int)).toNat = 0 := by
    omega
  rw [h]
  exact List.take_zero _

theorem searchMessages_ok_cases (sessionId searchQuery : String)
    (embedOutcome : Except String (List ℝ)) (messages : List StoredMessage)
    (limit : Int) (minSimilarity : ℝ) (includeRecent : Int) (res : SearchResult)
    (h : searchMessages sessionId searchQuery embedOutcome messages limit minSimilarity
      includeRecent = .ok res) :
    (messages = [] ∧ res.messages = []) ∨
    (∃ queryEmbedding scored,
      embedOutcome = .ok queryEmbedding ∧
      mapME (scoreMessage queryEmbedding) messages = .ok scored ∧
      res.messages =
        (jsSlice scored 0 includeRecent).map (tagMsg "recent") ++
        (jsSlice (sortBySimDesc
            ((jsSliceFrom scored includeRecent).filter
              (fun m => decide (minSimilarity ≤ m.similarity)))) 0
          (limit - includeRecent)).map (tagMsg "semantic")) := by
  simp only [searchMessages] at h
  split at h
  · exact absurd h (by simp)
  · cases embedOutcome with
    | error e => exact absurd h (by simp)
    | ok q =>
        simp only [] at h
        split at h
        · next hlen =>
            left
            refine ⟨List.length_eq_zero.mp hlen, ?_⟩
            simp only [Except.ok.injEq] at h
            rw [← h]
        · cases hm : mapME (scoreMessage q) messages with
          | error e =>
              rw [hm] at h
              exact absurd h (by simp)
          | ok scored =>
              rw [hm] at h
              simp only [Except.ok.injEq] at h
              right
              refine ⟨q, scored, rfl, hm, ?_⟩
              rw [← h]

/-- Claim C2, amended: for every call with `minSimilarity > 0`, a message
with no stored (or unparsable) embedding never appears in the result via
the semantic path: every returned entry built from an embedding-less
message is tagged "recent", and every entry past the first `includeRecent`
slots (when `includeRecent ≥ 0`) has an embedding. -/
theorem search_no_embedding_only_recent (sessionId searchQuery : String)
    (embedOutcome : Except String (List ℝ)) (messages : List StoredMessage)
    (limit : Int) (minSimilarity : ℝ) (includeRecent : Int) (res : SearchResult)
    (hmin : 0 < minSimilarity)
    (hres : searchMessages sessionId searchQuery embedOutcome messages limit
      minSimilarity includeRecent = .ok res) :
    (∀ t ∈ res.messages, t.hasEmbedding = false → t.reason = "recent") ∧
    (0 ≤ includeRecent →
      ∀ t ∈ res.messages.drop includeRecent.toNat, t.hasEmbedding = true) := by
  rcases searchMessages_ok_cases sessionId searchQuery embedOutcome messages limit
      minSimilarity includeRecent res hres with ⟨-, hempty⟩ | ⟨q, scored, -, hscored, hmsgs⟩
  · rw [hempty]
    exact ⟨by intro t ht; simp at ht, by intro _ t ht; simp at ht⟩
  · have hsem : ∀ m ∈ jsSlice (sortBySimDesc
        ((jsSliceFrom scored includeRecent).filter
          (fun m => decide (minSimilarity ≤ m.similarity)))) 0 (limit - includeRecent),
        m.hasEmbedding = true := by
      intro m hm
      have hm2 : m ∈ (jsSliceFrom scored includeRecent).filter
          (fun m => decide (minSimilarity ≤ m.similarity)) := by
        have h1 := mem_jsSlice m _ 0 (limit - includeRecent) hm
        rwa [mem_sortBySimDesc] at h1
      have hfil := List.mem_filter.mp hm2
      have hmem_scored : m ∈ scored := mem_jsSlice m scored includeRecent _ hfil.1
      have hsim : minSimilarity ≤ m.similarity := of_decide_eq_true hfil.2
      by_contra hemb
      have hfalse : m.hasEmbedding = false := by
        cases hb : m.hasEmbedding
        · rfl
        · exact absurd hb hemb
      rcases mapME_ok_mem (scoreMessage q) messages scored hscored m hmem_scored with
        ⟨src, -, hsrc⟩
      have hzero := scoreMessage_zero q src m hsrc hfalse
      rw [hzero] at hsim
      exact absurd (lt_of_lt_of_le hmin hsim) (lt_irrefl 0)
    constructor
    · intro t ht hne
      rw [hmsgs] at ht
      rcases List.mem_append.mp ht with ht1 | ht1
      · rcases List.mem_map.mp ht1 with ⟨m, -, rfl⟩
        rfl
      · rcases List.mem_map.mp ht1 with ⟨m, hm, rfl⟩
        have := hsem m hm
        simp only [tagMsg] at hne
        rw [this] at hne
        exact absurd hne (by simp)
    · intro hge t ht
      rw [hmsgs] at ht
      rw [List.drop_append_eq_append_drop] at ht
      have hlen : ((jsSlice scored 0 includeRecent).map (tagMsg "recent")).length ≤
          includeRecent.toNat := by
        rw [List.length_map]
        exact (jsSlice_zero_length_le scored includeRecent hge).1
      rw [List.drop_eq_nil_of_le hlen, List.nil_append] at ht
      have ht2 := List.mem_of_mem_drop ht
      rcases List.mem_map.mp ht2 with ⟨m, hm, rfl⟩
      exact hsem m hm

/-- Claim C2 counterexample: with `minSimilarity = 0` (the claim quantifies
over all values), a message with no stored embedding scores 0, passes the
`similarity ≥ minSimilarity` filter, and is returned tagged "semantic"
(here with `includeRecent = 0` so the recent window is empty). -/
theorem search_no_embedding_counterexample :
    searchMessages "s" "q" (.ok [1]) [msgNoEmb] 5 0 0 = .ok resSem ∧
    (tagMsg "semantic" sNoEmb).hasEmbedding = false ∧
    (tagMsg "semantic" sNoEmb).reason = "semantic" := by
  refine ⟨?_, rfl, rfl⟩
  simp [searchMessages, mapME, scoreMessage, parseEmbedding, msgNoEmb, jsSlice,
    jsSliceFrom, sortBySimDesc, insertBySim, tagMsg, sNoEmb, resSem,
    List.filter]

theorem search_no_embedding_only_recent_witness :
    searchMessages "s" "q" (.ok [1]) [msgNoEmb] 5 (1/2) 1 = .ok resRecent ∧
    (tagMsg "recent" sNoEmb).hasEmbedding = false ∧
    (tagMsg "recent" sNoEmb).reason = "recent" := by
  have hres : searchMessages "s" "q" (.ok [1]) [msgNoEmb] 5 (1/2) 1 = .ok resRecent := by
    simp [searchMessages, mapME, scoreMessage, parseEmbedding, msgNoEmb, jsSlice,
      jsSliceFrom, sortBySimDesc, insertBySim, tagMsg, sNoEmb, resRecent,
      List.filter]
  refine ⟨hres, rfl, ?_⟩
  have h := search_no_embedding_only_recent "s" "q" (.ok [1]) [msgNoEmb] 5 (1/2) 1
    resRecent (by norm_num) hres
  exact h.1 (tagMsg "recent" sNoEmb) (by simp [resRecent]) rfl

/-- Claim C3, amended: whenever `0 ≤ includeRecent ≤ limit`, the total
number of returned messages is at most `limit`; whenever
`includeRecent = limit` the semantic portion is empty (every returned entry
is tagged "recent") and, as the witness shows on a concrete call, this case
is an ordinary `.ok` result, not an error. -/
theorem search_limit_bound (sessionId searchQuery : String)
    (embedOutcome : Except String (List ℝ)) (messages : List StoredMessage)
    (limit : Int) (minSimilarity : ℝ) (includeRecent : Int) (res : SearchResult)
    (h0 : 0 ≤ includeRecent) (hil : includeRecent ≤ limit)
    (hres : searchMessages sessionId searchQuery embedOutcome messages limit
      minSimilarity includeRecent = .ok res) :
    res.messages.length ≤ limit.toNat ∧
    (includeRecent = limit → ∀ t ∈ res.messages, t.reason = "recent") := by
  rcases searchMessages_ok_cases sessionId searchQuery embedOutcome messages limit
      minSimilarity includeRecent res hres with ⟨-, hempty⟩ | ⟨q, scored, -, -, hmsgs⟩
  · rw [hempty]
    exact ⟨by simp, by intro _ t ht; simp at ht⟩
  · constructor
    · rw [hmsgs, List.length_append, List.length_map, List.length_map]
      have h1 := (jsSlice_zero_length_le scored includeRecent h0).1
      have h2 := (jsSlice_zero_length_le (sortBySimDesc
        ((jsSliceFrom scored includeRecent).filter
          (fun m => decide (minSimilarity ≤ m.similarity)))) (limit - includeRecent)
        (by omega)).1
      omega
    · intro heq t ht
      rw [hmsgs] at ht
      have hz : limit - includeRecent = 0 := by omega
      rw [hz, jsSlice_zero_zero] at ht
      simp only [List.map_nil, List.append_nil] at ht
      rcases List.mem_map.mp ht with ⟨m, -, rfl⟩
      rfl

/-- Claim C3 counterexample: with `limit = 1 < includeRecent = 2` and four
embedded messages, JS `slice(0, limit - includeRecent)` receives the
negative index -1 and keeps a semantic match: the call returns 3 > limit
messages and a non-empty semantic portion, refuting both the `limit` bound
and the emptiness of the semantic slice for `includeRecent ≥ limit`. -/
theorem search_limit_counterexample :
    searchMessages "s" "q" (.ok [1])
      [msgEmb "a" 13, msgEmb "b" 12, msgEmb "c" 11, msgEmb "d" 10] 1 (1/2) 2 =
      .ok resOver ∧
    resOver.messages.length = 3 ∧ ¬ (resOver.messages.length ≤ (1:Int).toNat) ∧
    (tagMsg "semantic" (sEmb "c" 11)) ∈ resOver.messages := by
  refine ⟨?_, rfl, by simp [resOver], by simp [resOver]⟩
  norm_num [searchMessages, mapME, scoreMessage, parseEmbedding, msgEmb,
    cosineSimilarity, jsSlice, jsSliceFrom, sortBySimDesc, insertBySim, tagMsg,
    sEmb, resOver, List.filter, Real.sqrt_one]
  simp

theorem search_limit_bound_witness :
    searchMessages "s" "q" (.ok [1]) [msgNoEmb] 1 (1/2) 1 = .ok resRecent ∧
    resRecent.messages.length ≤ (1 : Int).toNat ∧
    (tagMsg "recent" sNoEmb).reason = "recent" := by
  have hres : searchMessages "s" "q" (.ok [1]) [msgNoEmb] 1 (1/2) 1 = .ok resRecent := by
    simp [searchMessages, mapME, scoreMessage, parseEmbedding, msgNoEmb, jsSlice,
      jsSliceFrom, sortBySimDesc, insertBySim, tagMsg, sNoEmb, resRecent,
      List.filter]
  have h := search_limit_bound "s" "q" (.ok [1]) [msgNoEmb] 1 (1/2) 1 resRecent
    (by norm_num) (by norm_num) hres
  exact ⟨hres, h.1, h.2 rfl (tagMsg "recent" sNoEmb) (by simp [resRecent])⟩

/-- Claim C10: if any message of the session stores a parsable embedding
whose length differs from the query embedding, `searchMessages` raises (the
length-mismatch error from `cosineSimilarity` propagates out of the scoring
map), aborting the entire search rather than skipping that message. -/
theorem search_dimension_mismatch_raises (sessionId searchQuery : String)
    (embedOutcome : Except String (List ℝ)) (messages : List StoredMessage)
    (limit : Int) (minSimilarity : ℝ) (includeRecent : Int)
    (qe : List ℝ) (m : StoredMessage) (e : List ℝ)
    (hq : embedOutcome = .ok qe) (hm : m ∈ messages)
    (hp : parseEmbedding m.embedding = some e) (hl : e.length ≠ qe.length) :
    ∃ err, searchMessages sessionId searchQuery embedOutcome messages limit
      minSimilarity includeRecent = .error err := by
  cases hres : searchMessages sessionId searchQuery embedOutcome messages limit
      minSimilarity includeRecent with
  | error err => exact ⟨err, rfl⟩
  | ok res =>
      exfalso
      rcases searchMessages_ok_cases sessionId searchQuery embedOutcome messages limit
          minSimilarity includeRecent res hres with ⟨hempty, -⟩ | ⟨q, scored, hq2, hscored, -⟩
      · rw [hempty] at hm
        simp at hm
      · rw [hq] at hq2
        have hqe : qe = q := by injection hq2
        subst hqe
        rcases mapME_ok_of_mem (scoreMessage qe) messages scored hscored m hm with
          ⟨sm, hsm⟩
        exact scoreMessage_mismatch qe m e hp (fun h => hl h.symm) sm hsm

theorem search_dimension_mismatch_raises_witness :
    parseEmbedding msgDim2.embedding = some [(1:ℝ), 0] ∧
    ([(1:ℝ), 0].length ≠ [(1:ℝ)].length) ∧
    (∃ err, searchMessages "s" "q" (.ok [(1:ℝ)]) [msgDim2] 5 (1/2) 3 = .error err) :=
  ⟨rfl, by simp,
    search_dimension_mismatch_raises "s" "q" (.ok [(1:ℝ)]) [msgDim2] 5 (1/2) 3
      [(1:ℝ)] msgDim2 [(1:ℝ), 0] rfl (List.mem_singleton_self msgDim2) rfl (by simp)⟩

end Conversation
